import Mathlib

/-!
Verification of the rolling-window live-data dashboard (`dashboard/app.py`).

The file shallowly embeds the program's core in Lean:
* the fixed-capacity rolling window (`collections.deque(maxlen=DEQUE_SIZE)`),
* the synthetic sample source inside `reactive_calc_combined`
  (uniform Celsius draw rounded to one decimal, Fahrenheit conversion,
  wall-clock timestamp formatted to second precision),
* the chart renderer `display_plot` with its `scipy.stats.linregress`
  least-squares fit, best-fit series, and midpoint annotation.

Machine floats are modelled exactly: finite values as rationals and the
IEEE not-a-number as an explicit `PyFloat.nan` constructor; the only
degenerate division the program can reach is `0/0` (zero variance of the
x values), whose IEEE result is NaN.
-/

/-- A reading stored in the deque: the dictionary
`\x7b"temp": temp_fahrenheit, "timestamp": timestamp\x7d` built each tick. -/
structure Reading where
  temp : ℚ
  timestamp : String
deriving DecidableEq

/-- `DEQUE_SIZE: int = 5`. -/
def DEQUE_SIZE : Nat := 5

/-- `UPDATE_INTERVAL_SECS: int = 3`. -/
def UPDATE_INTERVAL_SECS : Nat := 3

/-- One `deque.append` on a deque of capacity `cap`
(`collections.deque(maxlen=cap)`): the entry goes to the right end and,
if the length now exceeds `cap`, elements leave from the left until the
length is `cap` again (at most one per append in this program). -/
def dequeAppend (cap : Nat) (d : List Reading) (r : Reading) : List Reading :=
  let d' := d ++ [r]
  if cap < d'.length then d'.drop (d'.length - cap) else d'

/-- A sequence of `deque.append` calls, oldest first. -/
def dequeAppendAll (cap : Nat) (d : List Reading) (rs : List Reading) : List Reading :=
  rs.foldl (dequeAppend cap) d

/-- The contents read through `deque_snapshot = reactive_value_wrapper.get()`
observed after `later` further appends have happened.  The program takes no
copy: `get()` returns the deque object itself, so a reader holding the
"snapshot" sees the deque's contents at read time, not at snapshot time. -/
def snapshotObserve (atSnapshot : List Reading) (later : List Reading) : List Reading :=
  dequeAppendAll DEQUE_SIZE atSnapshot later

/-- Concrete reading with value `v` used in scenario checks. -/
def mkR (v : ℚ) : Reading := { temp := v, timestamp := "" }

/-- A wall-clock instant as `datetime.now()` yields it: calendar fields down
to the second, plus the sub-second `microsecond` field that the program's
timestamp format discards. -/
structure DateTime where
  year : Nat
  month : Nat
  day : Nat
  hour : Nat
  minute : Nat
  second : Nat
  microsecond : Nat
deriving DecidableEq

/-- Two-digit zero padding, as `%m`, `%d`, `%H`, `%M`, `%S` produce. -/
def pad2 (n : Nat) : String :=
  if n < 10 then "0" ++ toString n else toString n

/-- Four-digit zero padding, as `%Y` produces for common years. -/
def pad4 (n : Nat) : String :=
  if n < 10 then "000" ++ toString n
  else if n < 100 then "00" ++ toString n
  else if n < 1000 then "0" ++ toString n
  else toString n

/-- `datetime.now().strftime` with the year-month-day hour:minute:second
format used by the program: second precision, no sub-second part. -/
def strftimeSeconds (t : DateTime) : String :=
  pad4 t.year ++ "-" ++ pad2 t.month ++ "-" ++ pad2 t.day ++ " " ++
    pad2 t.hour ++ ":" ++ pad2 t.minute ++ ":" ++ pad2 t.second

/-- Round-half-to-even on an exact rational, the rule Python's `round`
applies to the tie-free and tie cases alike. -/
def roundHalfEven (q : ℚ) : ℤ :=
  if q - ⌊q⌋ < 1/2 then ⌊q⌋
  else if 1/2 < q - ⌊q⌋ then ⌊q⌋ + 1
  else if ⌊q⌋ % 2 = 0 then ⌊q⌋ else ⌊q⌋ + 1

/-- `round(u, 1)`: round to one decimal place. -/
def round1 (u : ℚ) : ℚ := (roundHalfEven (u * 10) : ℚ) / 10

/-- The body of the synthetic sample source inside `reactive_calc_combined`,
as a function of the uniform draw `u = random.uniform(0, 5)` and the current
wall-clock instant:
`temp_celsius = round(u, 1)`, `temp_fahrenheit = temp_celsius * 9/5 + 32`,
`timestamp = now.strftime(...)`.  It is total: production never fails. -/
def makeReading (u : ℚ) (now : DateTime) : Reading :=
  { temp := round1 u * 9 / 5 + 32, timestamp := strftimeSeconds now }

/-- What one evaluation of `reactive_calc_combined` returns and leaves behind:
the returned tuple `(deque_snapshot, df, latest_dictionary_entry)` plus the
deque's new contents.  `df = pd.DataFrame(deque_snapshot)` holds the same
rows as the snapshot, so it is modelled by the same list of readings. -/
structure TickResult where
  deque_snapshot : List Reading
  df : List Reading
  latest_dictionary_entry : Reading
  newState : List Reading
deriving DecidableEq

/-- One evaluation of `reactive_calc_combined`, given the deque contents
`state` before the tick, the uniform draw `u` and the wall-clock `now`:
build the new entry, append it to the shared deque, then take
`deque_snapshot = reactive_value_wrapper.get()` (the same deque object,
which now already holds the new entry) and return everything. -/
def reactive_calc_combined (state : List Reading) (u : ℚ) (now : DateTime) :
    TickResult :=
  let new_dictionary_entry := makeReading u now
  let appended := dequeAppend DEQUE_SIZE state new_dictionary_entry
  { deque_snapshot := appended
    df := appended
    latest_dictionary_entry := new_dictionary_entry
    newState := appended }

/-- An IEEE double as this program can produce it: a finite value (kept
exact as a rational) or NaN.  The only degenerate operation reachable in
the program is the division `0/0` inside `linregress`, which yields NaN. -/
inductive PyFloat where
  | val : ℚ → PyFloat
  | nan : PyFloat
deriving DecidableEq

def PyFloat.add : PyFloat → PyFloat → PyFloat
  | .val a, .val b => .val (a + b)
  | _, _ => .nan

def PyFloat.sub : PyFloat → PyFloat → PyFloat
  | .val a, .val b => .val (a - b)
  | _, _ => .nan

def PyFloat.mul : PyFloat → PyFloat → PyFloat
  | .val a, .val b => .val (a * b)
  | _, _ => .nan

/-- Division; a zero denominator yields NaN.  In IEEE terms only `0/0` is
NaN, but the program reaches a zero denominator only with a zero numerator
(`ssxym = 0` whenever `ssxm = 0`): the variance of the x values vanishes
only when all x values coincide, which also kills the covariance. -/
def PyFloat.div : PyFloat → PyFloat → PyFloat
  | .val a, .val b => if b = 0 then .nan else .val (a / b)
  | _, _ => .nan

/-- `True` when the list is nonempty and all its entries equal its head:
the `xmax == xmin` degeneracy test of `scipy.stats.linregress`. -/
def allSame (xs : List ℚ) : Bool :=
  match xs with
  | [] => true
  | x :: t => t.all (fun a => decide (a = x))

/-- Arithmetic mean. -/
def mean (l : List ℚ) : ℚ := l.sum / l.length

/-- Biased sample variance of the x values (`ssxm` in `linregress`). -/
def ssxm (xs : List ℚ) : ℚ :=
  ((xs.map (fun x => (x - mean xs) ^ 2)).sum) / xs.length

/-- Biased sample covariance of x and y (`ssxym` in `linregress`). -/
def ssxym (xs ys : List ℚ) : ℚ :=
  ((List.zipWith (fun x y => (x - mean xs) * (y - mean ys)) xs ys).sum) / xs.length

/-- `scipy.stats.linregress(x_vals, y_vals)`, restricted to the slope and
intercept the program uses.  With more than one point and all x values
identical it raises `ValueError`; otherwise
`slope = ssxym/ssxm` and `intercept = ymean - slope*xmean`, NaN when the
x variance is zero (the single-point window). -/
def linregress (xs ys : List ℚ) : Except String (PyFloat × PyFloat) :=
  if 1 < xs.length ∧ allSame xs then
    .error "Cannot calculate a linear regression if all x values are identical"
  else
    let slope := PyFloat.div (.val (ssxym xs ys)) (.val (ssxm xs))
    let intercept := PyFloat.sub (.val (mean ys)) (PyFloat.mul slope (.val (mean xs)))
    .ok (slope, intercept)

/-- Python `int(q)`: truncation toward zero. -/
def pyInt (q : ℚ) : ℤ :=
  if 0 ≤ q then ⌊q⌋ else -⌊-q⌋

/-- `f"\x7bq:.2f\x7d"` on a finite value: two decimal places, rounding the
exact rational half-to-even. -/
def fmt2Rat (q : ℚ) : String :=
  let n := roundHalfEven (q * 100)
  let sign := if q < 0 then "-" else ""
  sign ++ toString (n.natAbs / 100) ++ "." ++ pad2 (n.natAbs % 100)

/-- `f"\x7bv:.2f\x7d"`: NaN prints as `nan`. -/
def fmt2 : PyFloat → String
  | .val q => fmt2Rat q
  | .nan => "nan"

/-- `x_vals = list(range(len(df)))`, as rationals. -/
def xVals (n : Nat) : List ℚ := (List.range n).map (fun i : ℕ => (i : ℚ))

/-- The figure `display_plot` builds in its nonempty branch: the scatter
of readings plus the regression trace `best_fit_line` and the one
annotation placed at index `int(len(df) / 2)` with the formula text. -/
structure ChartData where
  title : String
  temps : List ℚ
  slope : PyFloat
  intercept : PyFloat
  best_fit_line : List PyFloat
  annotationIndex : Nat
  annotationText : String
deriving DecidableEq

/-- The possible outcomes of one `display_plot` render: the full chart, the
empty placeholder figure, or an uncaught exception propagating out. -/
inductive Figure where
  | chart : ChartData → Figure
  | placeholder : String → Figure
  | raised : String → Figure
deriving DecidableEq

/-- The `display_plot` render function, as a function of the rows of the
data frame it receives from `reactive_calc_combined`.  Mirrors the source:
if `not df.empty`, build the scatter, run `linregress` over positional
index versus temperature, derive `best_fit_line`, and attach the
formula annotation at the midpoint row; otherwise return
`px.scatter(title="No Data Available")`. -/
def display_plot (df : List Reading) : Figure :=
  if ¬ df.isEmpty then
    let x_vals := xVals df.length
    let y_vals := df.map Reading.temp
    match linregress x_vals y_vals with
    | .error e => .raised e
    | .ok (slope, intercept) =>
      let best_fit_line :=
        x_vals.map (fun x => PyFloat.add (PyFloat.mul slope (.val x)) intercept)
      .chart
        { title := "Temperature Readings with Regression Line"
          temps := y_vals
          slope := slope
          intercept := intercept
          best_fit_line := best_fit_line
          annotationIndex := (pyInt ((df.length : ℚ) / 2)).toNat
          annotationText := "y = " ++ fmt2 slope ++ "x + " ++ fmt2 intercept }
  else
    .placeholder "No Data Available"

/-- Projection: the slope and intercept of a rendered chart. -/
def Figure.fitOf : Figure → Option (PyFloat × PyFloat)
  | .chart c => some (c.slope, c.intercept)
  | _ => none

/-- Projection: the regression trace of a rendered chart. -/
def Figure.bestFitOf : Figure → Option (List PyFloat)
  | .chart c => some c.best_fit_line
  | _ => none

/-- Projection: the annotation position of a rendered chart. -/
def Figure.annIndexOf : Figure → Option Nat
  | .chart c => some c.annotationIndex
  | _ => none

/-- Projection: the annotation text of a rendered chart. -/
def Figure.annTextOf : Figure → Option String
  | .chart c => some c.annotationText
  | _ => none

/-- The slope `linregress` produces for a window, as an exact rational. -/
def slopeQ (w : List Reading) : ℚ :=
  ssxym (xVals w.length) (w.map Reading.temp) / ssxm (xVals w.length)

/-- The intercept `linregress` produces for a window, as an exact rational. -/
def interceptQ (w : List Reading) : ℚ :=
  mean (w.map Reading.temp) - slopeQ w * mean (xVals w.length)

lemma dequeAppendAll_append (cap : Nat) (d : List Reading) (rs : List Reading) (r : Reading) :
    dequeAppendAll cap d (rs ++ [r]) = dequeAppend cap (dequeAppendAll cap d rs) r := by
  simp [dequeAppendAll]

/-- Starting from the empty deque, a sequence of appends leaves exactly the
last `cap` entries (all of them when there are fewer), in insertion order. -/
lemma dequeAppendAll_nil_eq_drop (cap : Nat) (rs : List Reading) :
    dequeAppendAll cap [] rs = rs.drop (rs.length - cap) := by
  induction rs using List.reverseRecOn with
  | nil => simp [dequeAppendAll]
  | append_singleton rs r ih =>
    rw [dequeAppendAll_append, ih]
    have hle : rs.length - cap ≤ rs.length := Nat.sub_le _ _
    have hsplit : (rs ++ [r]).drop (rs.length - cap) = rs.drop (rs.length - cap) ++ [r] :=
      List.drop_append_of_le_length hle
    simp only [dequeAppend, List.length_append, List.length_drop, List.length_singleton]
    split
    · next hcond =>
      rw [← hsplit, List.drop_drop]
      congr 1
      omega
    · next hcond =>
      have h1 : rs.length - cap = 0 := by omega
      have h2 : rs.length + 1 - cap = 0 := by omega
      rw [← hsplit, h2]
      simp [h1]

lemma roundHalfEven_le (q : ℚ) : (roundHalfEven q : ℚ) ≤ q + 1/2 := by
  have hfl : (⌊q⌋ : ℚ) ≤ q := Int.floor_le q
  have hlt : q < (⌊q⌋ : ℚ) + 1 := Int.lt_floor_add_one q
  unfold roundHalfEven
  split
  · next h => linarith
  · split
    · next h h' => push_cast; linarith
    · split <;> (next h h' _ => push_cast; linarith)

lemma le_roundHalfEven (q : ℚ) : q - 1/2 ≤ (roundHalfEven q : ℚ) := by
  have hfl : (⌊q⌋ : ℚ) ≤ q := Int.floor_le q
  have hlt : q < (⌊q⌋ : ℚ) + 1 := Int.lt_floor_add_one q
  unfold roundHalfEven
  split
  · next h => linarith
  · split
    · next h h' => push_cast; linarith
    · split <;> (next h h' _ => push_cast; linarith)

/-- The rounded Celsius draw stays inside the sampling range `[0, 5]`. -/
lemma round1_mem_range {u : ℚ} (h0 : 0 ≤ u) (h5 : u ≤ 5) :
    0 ≤ round1 u ∧ round1 u ≤ 5 := by
  have hub : (roundHalfEven (u * 10) : ℚ) ≤ u * 10 + 1/2 := roundHalfEven_le _
  have hlb : u * 10 - 1/2 ≤ (roundHalfEven (u * 10) : ℚ) := le_roundHalfEven _
  have hge : (0 : ℤ) ≤ roundHalfEven (u * 10) := by
    have h1 : (-1 : ℚ) < (roundHalfEven (u * 10) : ℚ) := by linarith
    have h2 : (-1 : ℤ) < roundHalfEven (u * 10) := by exact_mod_cast h1
    omega
  have hle : roundHalfEven (u * 10) ≤ (50 : ℤ) := by
    have h1 : (roundHalfEven (u * 10) : ℚ) < 51 := by linarith
    have h2 : roundHalfEven (u * 10) < (51 : ℤ) := by exact_mod_cast h1
    omega
  constructor
  · unfold round1
    have : (0 : ℚ) ≤ (roundHalfEven (u * 10) : ℚ) := by exact_mod_cast hge
    linarith
  · unfold round1
    have : (roundHalfEven (u * 10) : ℚ) ≤ 50 := by exact_mod_cast hle
    linarith

lemma xVals_length (n : Nat) : (xVals n).length = n := by
  unfold xVals
  rw [List.length_map, List.length_range]

lemma mem_xVals (n k : Nat) (h : k < n) : ((k : ℕ) : ℚ) ∈ xVals n := by
  unfold xVals
  exact List.mem_map_of_mem _ (List.mem_range.mpr h)

lemma sum_eq_zero_mem {l : List ℚ} (h0 : ∀ x ∈ l, 0 ≤ x) (hs : l.sum = 0) :
    ∀ x ∈ l, x = 0 := by
  induction l with
  | nil => simp
  | cons a t ih =>
    have ha : 0 ≤ a := h0 a (List.mem_cons_self a t)
    have ht : ∀ x ∈ t, 0 ≤ x := fun x hx => h0 x (List.mem_cons_of_mem a hx)
    have hts : 0 ≤ t.sum := List.sum_nonneg ht
    rw [List.sum_cons] at hs
    have ha0 : a = 0 := by linarith
    have hts0 : t.sum = 0 := by linarith
    intro x hx
    rcases List.mem_cons.mp hx with h | h
    · rw [h, ha0]
    · exact ih ht hts0 x h

/-- The x values `0, 1, ..., n-1` have nonzero variance once `n ≥ 2`. -/
lemma ssxm_xVals_ne_zero {n : Nat} (h : 2 ≤ n) : ssxm (xVals n) ≠ 0 := by
  intro hz
  unfold ssxm at hz
  rw [div_eq_zero_iff] at hz
  have hn : (((xVals n).length : ℚ)) ≠ 0 := by
    rw [xVals_length]
    exact Nat.cast_ne_zero.mpr (by omega)
  have hsum : ((xVals n).map (fun x => (x - mean (xVals n)) ^ 2)).sum = 0 := by
    rcases hz with hz | hz
    · exact hz
    · exact absurd hz hn
  have hall : ∀ y ∈ (xVals n).map (fun x => (x - mean (xVals n)) ^ 2), y = 0 := by
    refine sum_eq_zero_mem ?_ hsum
    intro y hy
    rcases List.mem_map.mp hy with ⟨x, _, rfl⟩
    exact sq_nonneg _
  have h0 : ((0 : ℚ) - mean (xVals n)) ^ 2 = 0 :=
    hall _ (List.mem_map_of_mem _ (by simpa using mem_xVals n 0 (by omega)))
  have h1 : ((1 : ℚ) - mean (xVals n)) ^ 2 = 0 :=
    hall _ (List.mem_map_of_mem _ (by simpa using mem_xVals n 1 (by omega)))
  have e0 : (0 : ℚ) = mean (xVals n) :=
    sub_eq_zero.mp (pow_eq_zero_iff (two_ne_zero) |>.mp h0)
  have e1 : (1 : ℚ) = mean (xVals n) :=
    sub_eq_zero.mp (pow_eq_zero_iff (two_ne_zero) |>.mp h1)
  rw [← e0] at e1
  norm_num at e1

lemma allSame_eq_true_all {xs : List ℚ} (h : allSame xs = true) :
    ∀ a ∈ xs, ∀ b ∈ xs, a = b := by
  cases xs with
  | nil => simp
  | cons x t =>
    have ht : ∀ a ∈ t, a = x := by simpa [allSame] using h
    intro a ha b hb
    have hax : a = x := by
      rcases List.mem_cons.mp ha with h' | h'
      · exact h'
      · exact ht a h'
    have hbx : b = x := by
      rcases List.mem_cons.mp hb with h' | h'
      · exact h'
      · exact ht b h'
    rw [hax, hbx]

/-- The `ValueError` degeneracy check never fires on `0, 1, ..., n-1`
when `n ≥ 2`. -/
lemma allSame_xVals_eq_false {n : Nat} (h : 2 ≤ n) : allSame (xVals n) = false := by
  cases hb : allSame (xVals n) with
  | false => rfl
  | true =>
    have h01 : (0 : ℚ) = 1 :=
      allSame_eq_true_all hb 0 (by simpa using mem_xVals n 0 (by omega))
        1 (by simpa using mem_xVals n 1 (by omega))
    norm_num at h01

/-- On the x values `0, 1, ..., n-1` with `n ≥ 2`, `linregress` returns
finite slope and intercept given by the covariance formulas. -/
lemma linregress_xVals_ok {n : Nat} (ys : List ℚ) (h : 2 ≤ n) :
    linregress (xVals n) ys =
      .ok (.val (ssxym (xVals n) ys / ssxm (xVals n)),
           .val (mean ys - ssxym (xVals n) ys / ssxm (xVals n) * mean (xVals n))) := by
  unfold linregress
  rw [if_neg]
  · simp only [PyFloat.div, if_neg (ssxm_xVals_ne_zero h), PyFloat.mul, PyFloat.sub]
  · rintro ⟨-, hsame⟩
    rw [allSame_xVals_eq_false h] at hsame
    simp at hsame

lemma pyInt_half (n : Nat) : (pyInt ((n : ℚ) / 2)).toNat = n / 2 := by
  unfold pyInt
  rw [if_pos (by positivity)]
  have hcast : ((n : ℚ) / 2) = ((n : ℤ) : ℚ) / ((2 : ℕ) : ℚ) := by push_cast; ring
  rw [hcast, Rat.floor_intCast_div_natCast]
  omega

lemma isEmpty_false_of_two_le {w : List Reading} (h : 2 ≤ w.length) :
    w.isEmpty = false := by
  cases w with
  | nil => simp at h
  | cons a t => rfl

/-- For a window with at least two readings, `display_plot` renders the
full chart: scatter, finite regression line, midpoint annotation. -/
lemma display_plot_eq_chart {w : List Reading} (h : 2 ≤ w.length) :
    display_plot w = Figure.chart
      { title := "Temperature Readings with Regression Line"
        temps := w.map Reading.temp
        slope := .val (slopeQ w)
        intercept := .val (interceptQ w)
        best_fit_line :=
          (xVals w.length).map (fun x => .val (slopeQ w * x + interceptQ w))
        annotationIndex := (pyInt ((w.length : ℚ) / 2)).toNat
        annotationText :=
          "y = " ++ fmt2Rat (slopeQ w) ++ "x + " ++ fmt2Rat (interceptQ w) } := by
  have hne := isEmpty_false_of_two_le h
  simp only [display_plot, hne, Bool.false_eq_true, not_false_eq_true, if_true,
    linregress_xVals_ok (w.map Reading.temp) h]
  simp only [slopeQ, interceptQ, PyFloat.mul, PyFloat.add, fmt2]

lemma zipWith_vanishes (m c : ℚ) :
    ∀ (xs ys : List ℚ), (∀ y ∈ ys, y = c) →
      (List.zipWith (fun x y => (x - m) * (y - c)) xs ys).sum = 0
  | [], _, _ => by simp
  | _ :: _, [], _ => by simp
  | a :: t, b :: ts, hy => by
    have hb : b = c := hy b (List.mem_cons_self b ts)
    have hts : ∀ y ∈ ts, y = c := fun y hy' => hy y (List.mem_cons_of_mem b hy')
    simp [hb, zipWith_vanishes m c t ts hts]

lemma dequeAppend_eq_concat (cap : Nat) (hcap : 1 ≤ cap) (d : List Reading) (r : Reading) :
    ∃ t, dequeAppend cap d r = t ++ [r] := by
  simp only [dequeAppend, List.length_append, List.length_singleton]
  split
  · next h =>
    refine ⟨d.drop (d.length + 1 - cap), ?_⟩
    rw [List.drop_append_of_le_length (by omega)]
  · exact ⟨d, rfl⟩

/-- **C1.** FIFO eviction invariant: after any sequence of more than
`DEQUE_SIZE = 5` appends into the initially empty window, the window holds
exactly the last 5 appended readings, in their original insertion order. -/
theorem fifo_eviction_last_five (rs : List Reading) (h : DEQUE_SIZE < rs.length) :
    dequeAppendAll DEQUE_SIZE [] rs = rs.drop (rs.length - DEQUE_SIZE) ∧
    (dequeAppendAll DEQUE_SIZE [] rs).length = DEQUE_SIZE := by
  refine ⟨dequeAppendAll_nil_eq_drop _ _, ?_⟩
  rw [dequeAppendAll_nil_eq_drop]
  simp only [List.length_drop]
  omega

/-- **C1 witness.** Scenario B: appending 7 readings with values 1..7 into the
capacity-5 window leaves exactly the values `[3,4,5,6,7]` in that order. -/
theorem fifo_eviction_last_five_witness :
    dequeAppendAll DEQUE_SIZE []
        [mkR 1, mkR 2, mkR 3, mkR 4, mkR 5, mkR 6, mkR 7] =
      [mkR 3, mkR 4, mkR 5, mkR 6, mkR 7] := by
  have h := fifo_eviction_last_five
    [mkR 1, mkR 2, mkR 3, mkR 4, mkR 5, mkR 6, mkR 7] (by decide)
  rw [h.1]
  decide

/-- **C2 counterexample.** A window of length 1 (< 2) is *not* rendered with
the trend skipped: `display_plot` takes the nonempty branch, the fit is
attempted with zero x-variance, and the chart carries a NaN slope, a NaN
intercept and the annotation `y = nanx + nan`. -/
theorem short_window_skip_counterexample :
    display_plot [mkR 3] ≠ Figure.placeholder "No Data Available" ∧
    (display_plot [mkR 3]).fitOf = some (PyFloat.nan, PyFloat.nan) ∧
    (display_plot [mkR 3]).annTextOf = some "y = nanx + nan" := by
  have h1 : List.range 1 = [0] := rfl
  have hssxm : ssxm (xVals 1) = 0 := by
    norm_num [ssxm, xVals, mean, h1]
  have hlr : linregress (xVals 1) [(mkR 3).temp] = .ok (PyFloat.nan, PyFloat.nan) := by
    unfold linregress
    rw [if_neg (by norm_num [xVals_length])]
    simp [PyFloat.div, hssxm, PyFloat.mul, PyFloat.sub]
  have hplot : display_plot [mkR 3] = Figure.chart
      { title := "Temperature Readings with Regression Line"
        temps := [(mkR 3).temp]
        slope := PyFloat.nan
        intercept := PyFloat.nan
        best_fit_line := [PyFloat.nan]
        annotationIndex := 0
        annotationText := "y = nanx + nan" } := by
    simp only [display_plot, List.isEmpty_cons, Bool.false_eq_true, not_false_eq_true,
      if_true, List.length_singleton, List.map_cons, List.map_nil, hlr]
    simp only [xVals, h1, List.map_cons, List.map_nil, PyFloat.mul, PyFloat.add, fmt2]
    norm_num [pyInt]
    decide
  refine ⟨?_, ?_, ?_⟩
  · rw [hplot]
    simp
  · rw [hplot]
    rfl
  · rw [hplot]
    rfl

/-- **C2 amended.** Only the empty window is skipped: `display_plot []` is
the `"No Data Available"` placeholder and computes no fit, while for any
single-reading window the renderer does not skip — it runs the fit, whose
slope and intercept come out NaN, and still attaches the regression trace
and the `y = nanx + nan` annotation (the render does not raise). -/
theorem short_window_trend_amended (r : Reading) :
    display_plot [] = Figure.placeholder "No Data Available" ∧
    display_plot [r] ≠ Figure.placeholder "No Data Available" ∧
    (display_plot [r]).fitOf = some (PyFloat.nan, PyFloat.nan) ∧
    (display_plot [r]).annTextOf = some "y = nanx + nan" := by
  have h1 : List.range 1 = [0] := rfl
  have hssxm : ssxm (xVals 1) = 0 := by
    norm_num [ssxm, xVals, mean, h1]
  have hlr : linregress (xVals 1) [r.temp] = .ok (PyFloat.nan, PyFloat.nan) := by
    unfold linregress
    rw [if_neg (by norm_num [xVals_length])]
    simp [PyFloat.div, hssxm, PyFloat.mul, PyFloat.sub]
  have hplot : display_plot [r] = Figure.chart
      { title := "Temperature Readings with Regression Line"
        temps := [r.temp]
        slope := PyFloat.nan
        intercept := PyFloat.nan
        best_fit_line := [PyFloat.nan]
        annotationIndex := 0
        annotationText := "y = nanx + nan" } := by
    simp only [display_plot, List.isEmpty_cons, Bool.false_eq_true, not_false_eq_true,
      if_true, List.length_singleton, List.map_cons, List.map_nil, hlr]
    simp only [xVals, h1, List.map_cons, List.map_nil, PyFloat.mul, PyFloat.add, fmt2]
    norm_num [pyInt]
    decide
  refine ⟨rfl, ?_, ?_, ?_⟩
  · rw [hplot]
    simp
  · rw [hplot]
    rfl
  · rw [hplot]
    rfl

/-- **C3.** The synthetic sample source is total (no failure path exists);
its reading carries the Celsius draw rounded to one decimal — still inside
the sampling range `[0, 5]` — converted exactly by
`temp_fahrenheit = temp_celsius * 9/5 + 32`, and a timestamp that is the
wall-clock instant formatted to second precision (independent of the
instant's sub-second field). -/
theorem synthetic_source_reading (u : ℚ) (now : DateTime) (h0 : 0 ≤ u) (h5 : u ≤ 5) :
    (makeReading u now).temp = round1 u * 9 / 5 + 32 ∧
    0 ≤ round1 u ∧ round1 u ≤ 5 ∧
    (makeReading u now).timestamp = strftimeSeconds now ∧
    strftimeSeconds now = strftimeSeconds { now with microsecond := 0 } := by
  obtain ⟨hlo, hhi⟩ := round1_mem_range h0 h5
  exact ⟨rfl, hlo, hhi, rfl, rfl⟩

/-- **C3 witness.** The theorem applied at the draw `u = 3` and a concrete
instant. -/
theorem synthetic_source_reading_witness :
    (0 : ℚ) ≤ 3 ∧ (3 : ℚ) ≤ 5 ∧
    ((makeReading 3 ⟨2026, 10, 12, 9, 5, 3, 123⟩).temp = round1 3 * 9 / 5 + 32 ∧
      0 ≤ round1 3 ∧ round1 3 ≤ 5 ∧
      (makeReading 3 ⟨2026, 10, 12, 9, 5, 3, 123⟩).timestamp =
        strftimeSeconds ⟨2026, 10, 12, 9, 5, 3, 123⟩ ∧
      strftimeSeconds ⟨2026, 10, 12, 9, 5, 3, 123⟩ =
        strftimeSeconds ⟨2026, 10, 12, 9, 5, 3, 0⟩) :=
  ⟨by norm_num, by norm_num,
    synthetic_source_reading 3 ⟨2026, 10, 12, 9, 5, 3, 123⟩ (by norm_num) (by norm_num)⟩

/-- **C4.** For a window of length `L ≥ 2` the fit is finite, the best-fit
series has length `L` with `best_fit_line[j] = slope*j + intercept` at every
index, the annotation sits at row `int(L / 2) = L // 2`, and its text is the
formula with slope and intercept formatted to two decimals. -/
theorem trend_fit_series_and_label (w : List Reading) (h : 2 ≤ w.length) :
    ∃ s i : ℚ,
      (display_plot w).fitOf = some (.val s, .val i) ∧
      ((display_plot w).bestFitOf.getD []).length = w.length ∧
      (∀ j : Nat, j < w.length →
        ((display_plot w).bestFitOf.getD [])[j]? = some (.val (s * j + i))) ∧
      (display_plot w).annIndexOf = some (w.length / 2) ∧
      (display_plot w).annTextOf =
        some ("y = " ++ fmt2Rat s ++ "x + " ++ fmt2Rat i) := by
  refine ⟨slopeQ w, interceptQ w, ?_, ?_, ?_, ?_, ?_⟩
  · rw [display_plot_eq_chart h]
    rfl
  · rw [display_plot_eq_chart h]
    simp [Figure.bestFitOf, xVals_length]
  · intro j hj
    rw [display_plot_eq_chart h]
    simp only [Figure.bestFitOf, Option.getD_some]
    rw [List.getElem?_map]
    have hx : (xVals w.length)[j]? = some ((j : ℕ) : ℚ) := by
      unfold xVals
      rw [List.getElem?_map, List.getElem?_range hj]
      rfl
    rw [hx]
    rfl
  · rw [display_plot_eq_chart h]
    simp only [Figure.annIndexOf, Option.some_inj]
    exact pyInt_half w.length
  · rw [display_plot_eq_chart h]
    rfl

/-- **C4 witness.** The theorem applied at the two-reading window with
values 1 and 3. -/
theorem trend_fit_series_and_label_witness :
    2 ≤ ([mkR 1, mkR 3] : List Reading).length ∧
    (∃ s i : ℚ,
      (display_plot [mkR 1, mkR 3]).fitOf = some (.val s, .val i) ∧
      ((display_plot [mkR 1, mkR 3]).bestFitOf.getD []).length =
        ([mkR 1, mkR 3] : List Reading).length ∧
      (∀ j : Nat, j < ([mkR 1, mkR 3] : List Reading).length →
        ((display_plot [mkR 1, mkR 3]).bestFitOf.getD [])[j]? =
          some (.val (s * j + i))) ∧
      (display_plot [mkR 1, mkR 3]).annIndexOf =
        some (([mkR 1, mkR 3] : List Reading).length / 2) ∧
      (display_plot [mkR 1, mkR 3]).annTextOf =
        some ("y = " ++ fmt2Rat s ++ "x + " ++ fmt2Rat i)) :=
  ⟨by decide, trend_fit_series_and_label [mkR 1, mkR 3] (by decide)⟩

/-- **C5.** Scenario A: after appending readings with values 1,2,3,4,5 into
the capacity-5 window, the fit has slope 1 and intercept 1 exactly. -/
theorem scenario_a_unit_slope :
    (display_plot (dequeAppendAll DEQUE_SIZE []
        [mkR 1, mkR 2, mkR 3, mkR 4, mkR 5])).fitOf =
      some (.val 1, .val 1) := by
  have hw : dequeAppendAll DEQUE_SIZE [] [mkR 1, mkR 2, mkR 3, mkR 4, mkR 5] =
      [mkR 1, mkR 2, mkR 3, mkR 4, mkR 5] := by
    rw [dequeAppendAll_nil_eq_drop]
    rfl
  have hr5 : List.range 5 = [0, 1, 2, 3, 4] := rfl
  have hx : xVals 5 = [0, 1, 2, 3, 4] := by
    norm_num [xVals, hr5]
  have hlen : ([mkR 1, mkR 2, mkR 3, mkR 4, mkR 5] : List Reading).length = 5 := rfl
  have hslope : slopeQ [mkR 1, mkR 2, mkR 3, mkR 4, mkR 5] = 1 := by
    norm_num [slopeQ, ssxym, ssxm, mean, hlen, hx, mkR]
  have hicpt : interceptQ [mkR 1, mkR 2, mkR 3, mkR 4, mkR 5] = 1 := by
    unfold interceptQ
    rw [hslope]
    norm_num [mean, hlen, hx, mkR]
  rw [hw, display_plot_eq_chart (by norm_num)]
  simp only [Figure.fitOf, hslope, hicpt]

/-- **C6.** A window of length at least 2 whose readings all carry the same
value `c` fits a flat line: slope exactly 0 and intercept exactly `c`, over
the exact rational arithmetic of the model. -/
theorem constant_window_flat_fit (c : ℚ) (w : List Reading) (h2 : 2 ≤ w.length)
    (hc : ∀ r ∈ w, r.temp = c) :
    (display_plot w).fitOf = some (.val 0, .val c) := by
  have hys : ∀ y ∈ w.map Reading.temp, y = c := by
    intro y hy
    rcases List.mem_map.mp hy with ⟨r, hr, rfl⟩
    exact hc r hr
  have hmean : mean (w.map Reading.temp) = c := by
    unfold mean
    rw [List.sum_eq_card_nsmul _ c hys, nsmul_eq_mul, List.length_map]
    have hne : (w.length : ℚ) ≠ 0 := Nat.cast_ne_zero.mpr (by omega)
    field_simp
  have hss : ssxym (xVals w.length) (w.map Reading.temp) = 0 := by
    unfold ssxym
    simp only [hmean]
    rw [zipWith_vanishes (mean (xVals w.length)) c _ _ hys, zero_div]
  have hslope : slopeQ w = 0 := by
    unfold slopeQ
    rw [hss, zero_div]
  have hicpt : interceptQ w = c := by
    unfold interceptQ
    rw [hslope, hmean]
    ring
  rw [display_plot_eq_chart h2]
  simp only [Figure.fitOf, hslope, hicpt]

/-- **C6 witness.** The theorem applied at a three-reading window of
constant value 4. -/
theorem constant_window_flat_fit_witness :
    2 ≤ ([mkR 4, mkR 4, mkR 4] : List Reading).length ∧
    (∀ r ∈ ([mkR 4, mkR 4, mkR 4] : List Reading), r.temp = 4) ∧
    (display_plot [mkR 4, mkR 4, mkR 4]).fitOf = some (.val 0, .val 4) :=
  ⟨by decide, by decide,
    constant_window_flat_fit 4 [mkR 4, mkR 4, mkR 4] (by decide) (by decide)⟩

/-- **C7 counterexample.** The snapshot is not insulated from later
mutation: snapshotting the one-reading window and then appending one more
reading changes what is read through the snapshot — the claim that a prior
snapshot's contents are unaffected by a subsequent append is false. -/
theorem snapshot_alias_counterexample :
    snapshotObserve [mkR 1] [mkR 2] ≠ [mkR 1] ∧
    snapshotObserve [mkR 1] [mkR 2] = [mkR 1, mkR 2] := by
  decide

/-- **C7 amended.** `deque_snapshot` is the internal deque itself, not a
copy: it coincides with the tick's new internal state, a later append shows
through it, and only with no intervening append is what it shows unchanged. -/
theorem snapshot_alias_amended (s : List Reading) (u : ℚ) (now : DateTime) (r : Reading) :
    (reactive_calc_combined s u now).deque_snapshot =
      (reactive_calc_combined s u now).newState ∧
    snapshotObserve (reactive_calc_combined s u now).deque_snapshot [r] =
      dequeAppend DEQUE_SIZE (reactive_calc_combined s u now).newState r ∧
    snapshotObserve (reactive_calc_combined s u now).deque_snapshot [] =
      (reactive_calc_combined s u now).deque_snapshot :=
  ⟨rfl, rfl, rfl⟩

/-- **C8.** Snapshot idempotence between mutations: a snapshot read with no
intervening append returns exactly the current window contents, so two
successive snapshot calls with nothing appended in between are equal. -/
theorem snapshot_idempotent_no_mutation (s : List Reading) :
    snapshotObserve s [] = s ∧
    snapshotObserve s [] = snapshotObserve s [] :=
  ⟨rfl, rfl⟩

/-- **C9.** Scenario D: on the empty window the renderer neither fits nor
fails — it returns the placeholder figure whose title is exactly
`"No Data Available"`, carrying no fit and no trend series. -/
theorem empty_window_no_data_title :
    display_plot [] = Figure.placeholder "No Data Available" ∧
    (display_plot []).fitOf = none ∧
    (display_plot []).bestFitOf = none :=
  ⟨rfl, rfl, rfl⟩

/-- **C10.** Every evaluation of the shared reactive computation appends the
fresh reading before snapshotting, so its snapshot is the post-append deque,
never empty, its last element is the returned latest reading, and the chart
renderer can never take the empty-window placeholder branch on this tick's
data frame. -/
theorem tick_appends_before_snapshot (s : List Reading) (u : ℚ) (now : DateTime) :
    (reactive_calc_combined s u now).deque_snapshot =
      dequeAppend DEQUE_SIZE s (makeReading u now) ∧
    (reactive_calc_combined s u now).deque_snapshot ≠ [] ∧
    (reactive_calc_combined s u now).deque_snapshot.getLast? =
      some (reactive_calc_combined s u now).latest_dictionary_entry ∧
    (reactive_calc_combined s u now).df =
      (reactive_calc_combined s u now).deque_snapshot ∧
    ∀ msg : String,
      display_plot (reactive_calc_combined s u now).df ≠ Figure.placeholder msg := by
  obtain ⟨t, ht⟩ := dequeAppend_eq_concat DEQUE_SIZE (by decide) s (makeReading u now)
  have hsnap : (reactive_calc_combined s u now).deque_snapshot =
      t ++ [makeReading u now] := ht
  refine ⟨rfl, ?_, ?_, rfl, ?_⟩
  · rw [hsnap]
    simp
  · rw [hsnap]
    exact List.getLast?_concat t
  · intro msg
    have hdf : (reactive_calc_combined s u now).df = t ++ [makeReading u now] := ht
    rw [hdf]
    have hne : (t ++ [makeReading u now]).isEmpty = false := by
      cases t <;> rfl
    simp only [display_plot, hne, Bool.false_eq_true, not_false_eq_true, if_true]
    split
    · simp
    · simp
